import Mathlib

/-!
Shallow embedding of the tool-call event pipeline of the repository
(`src/lib/agent-events.ts` and the ingestion/stop logic of `src/app/page.tsx`).

JavaScript dynamic values are modelled by the inductive `JSValue`; JS numbers
are abstracted as integers (no claim here depends on float semantics, and every
modelled number is finite).  JS objects are modelled as association lists whose
member access is first-match lookup, absent keys giving `undefined`.  Records
(`byId`, `callStart`) are modelled as functions into `Option`.  `Date.now()` is
made explicit: each function that reads the clock takes a `now : Nat` argument.
-/

/-- A JavaScript runtime value, as far as the event pipeline inspects one. -/
inductive JSValue where
  | undef
  | null
  | bool (b : Bool)
  | num (n : Int)
  | str (s : String)
  | arr (elems : List JSValue)
  | obj (fields : List (String × JSValue))

/-- JS member access `record.k`: first binding of the key, else `undefined`. -/
def getField (fields : List (String × JSValue)) (k : String) : JSValue :=
  match fields with
  | [] => .undef
  | (k', v) :: rest => if k' = k then v else getField rest k

/-- `asString` from agent-events.ts: the value if it is a string, else undefined. -/
def asString : JSValue → Option String
  | .str s => some s
  | _ => none

/-- `asNumber` from agent-events.ts (every modelled number is finite). -/
def asNumber : JSValue → Option Int
  | .num n => some n
  | _ => none

/-- `asCoordinate` from agent-events.ts: a two-element array of numbers. -/
def asCoordinate : JSValue → Option (Int × Int)
  | .arr [x, y] =>
    match x, y with
    | .num a, .num b => some (a, b)
    | _, _ => none
  | _ => none

/-- `asRecord` from agent-events.ts: a non-null, non-array object, else undefined. -/
def asRecord : JSValue → Option (List (String × JSValue))
  | .obj fields => some fields
  | _ => none

/-- `ToolName` from agent-events.ts. -/
inductive ToolName where
  | computer
  | bash
  | unknown
deriving DecidableEq

/-- `ToolEventStatus` from agent-events.ts. -/
inductive ToolEventStatus where
  | running
  | success
  | error
  | aborted
deriving DecidableEq

/-- The ten strings of the `ComputerAction` union type in agent-events.ts. -/
def computerActions : List String :=
  ["screenshot", "left_click", "right_click", "double_click", "mouse_move",
   "type", "key", "wait", "scroll", "unknown"]

/-- `ToolPayload` from agent-events.ts.  The TS `action` field is declared with
the closed union `ComputerAction`, but at runtime it is produced by an
unchecked cast from an arbitrary string, so the embedding carries the runtime
string; membership in the declared union is `computerActions`. -/
inductive ToolPayload where
  | computer (action : String) (coordinate : Option (Int × Int))
      (text : Option String) (duration : Option Int)
      (scroll_amount : Option Int) (scroll_direction : Option String)
  | bash (command : String)
  | unknown (raw : List (String × JSValue))

/-- `ToolResult` from agent-events.ts. -/
inductive ToolResult where
  | text (text : String)
  | image (data : String)
  | aborted (text : String)
  | unknown (raw : JSValue)

/-- `ToolEvent` from agent-events.ts; timestamps in ms since epoch. -/
structure ToolEvent where
  id : String
  toolName : ToolName
  timestamp : Nat
  status : ToolEventStatus
  durationMs : Option Nat
  payload : ToolPayload
  result : Option ToolResult

/-- `EventState` from agent-events.ts; the JS `Record` is modelled by its
lookup function. -/
structure EventState where
  byId : String → Option ToolEvent
  order : List String

/-- `EventAction` from agent-events.ts. -/
inductive EventAction where
  | registerCall (event : ToolEvent)
  | registerResult (id : String) (status : ToolEventStatus)
      (durationMs : Nat) (result : Option ToolResult)
  | reset

/-- `initialEventState` from agent-events.ts. -/
def initialEventState : EventState :=
  { byId := fun _ => none, order := [] }

/-- `eventReducer` from agent-events.ts.  `now` stands for the `Date.now()`
read in the synthesized-event branch. -/
def eventReducer (now : Nat) (state : EventState) (action : EventAction) : EventState :=
  match action with
  | .registerCall e =>
    match state.byId e.id with
    | some _ => state
    | none =>
      { byId := fun k => if k = e.id then some e else state.byId k,
        order := state.order ++ [e.id] }
  | .registerResult id status durationMs result =>
    match state.byId id with
    | none =>
      let event : ToolEvent :=
        { id := id, toolName := .unknown, timestamp := now, status := status,
          durationMs := some durationMs, payload := .unknown [], result := result }
      { byId := fun k => if k = id then some event else state.byId k,
        order := state.order ++ [id] }
    | some existing =>
      { byId := fun k =>
          if k = id then
            some { existing with
                    status := status,
                    durationMs := some durationMs,
                    result := match result with
                      | some r => some r
                      | none => existing.result }
          else state.byId k,
        order := state.order }
  | .reset => initialEventState

/-- Modelled from the spec: the abort sentinel exported by `lib/utils` is not
under `src/`; the spec says only that it is "one reserved string value"
recognized wherever a result's text content is compared.  Its concrete content
is irrelevant to every claim below except that a reserved marker is nonempty. -/
def ABORTED : String := "aborted"

/-- `parseToolPayload` from agent-events.ts.  The computer branch reproduces
`(action as ComputerAction) ?? "unknown"`: the `??` falls back only on an
absent/undefined action, so any present string passes through the cast. -/
def parseToolPayload (toolName : String) (args : JSValue) : ToolPayload :=
  if toolName = "bash" then
    let command : Option String :=
      match asRecord args with
      | some record => asString (getField record "command")
      | none => none
    .bash (command.getD "")
  else if toolName = "computer" then
    let record := (asRecord args).getD []
    let action := asString (getField record "action")
    .computer (action.getD "unknown")
      (asCoordinate (getField record "coordinate"))
      (asString (getField record "text"))
      (asNumber (getField record "duration"))
      (asNumber (getField record "scroll_amount"))
      (asString (getField record "scroll_direction"))
  else
    .unknown ((asRecord args).getD [])

/-- `parseToolResult` from agent-events.ts.  The object branches reproduce the
ordered checks `record?.type === "image" && typeof record.data === "string"`
and `record?.type === "text" && typeof record.text === "string"`. -/
def parseToolResult (result : JSValue) : Option ToolResult :=
  match result with
  | .undef => none
  | .null => none
  | .str s => if s = ABORTED then some (.aborted s) else some (.text s)
  | r =>
    match asRecord r with
    | none => some (.unknown r)
    | some record =>
      if asString (getField record "type") = some "image" then
        match asString (getField record "data") with
        | some d => some (.image d)
        | none => some (.unknown r)
      else if asString (getField record "type") = some "text" then
        match asString (getField record "text") with
        | some t => if t = ABORTED then some (.aborted t) else some (.text t)
        | none => some (.unknown r)
      else some (.unknown r)

/-- `deriveStatusFromResult` from agent-events.ts. -/
def deriveStatusFromResult : Option ToolResult → ToolEventStatus
  | none => .success
  | some (.aborted _) => .aborted
  | some _ => .success

/-- `normalizeToolName` from app/page.tsx. -/
def normalizeToolName (toolName : String) : ToolName :=
  if toolName = "computer" then .computer
  else if toolName = "bash" then .bash
  else .unknown

/-- A chat message part, as far as the ingestion scanner in app/page.tsx
inspects it: either a tool-invocation part carrying
`{toolCallId, toolName, state, args, result}` (the optional `result` is
`JSValue.undef` when absent), or any other part kind. -/
inductive MessagePart where
  | toolInvocation (toolCallId : String) (toolName : String) (state : String)
      (args : JSValue) (result : JSValue)
  | other

/-- A chat message: a role and a list of parts (page.tsx reads nothing else). -/
structure ChatMessage where
  role : String
  parts : List MessagePart

/-- The scanner's process-scoped mutable context in app/page.tsx:
`seenCallsRef`, `seenResultsRef`, `callStartRef`, and the reducer store. -/
structure ScannerState where
  seenCalls : List String
  seenResults : List String
  callStart : String → Option Nat
  events : EventState

/-- The scanner context right after a reset (page.tsx lines 377-383). -/
def initialScannerState : ScannerState :=
  { seenCalls := [], seenResults := [], callStart := fun _ => none,
    events := initialEventState }

/-- The first `if` of the part loop of the ingestion effect (page.tsx lines
396-411): a first-seen call-state occurrence records its start time and
dispatches register-call with a running event. -/
def scanPartCall (now : Nat) (s : ScannerState)
    (toolCallId toolName state : String) (args : JSValue) : ScannerState :=
  if state = "call" ∧ toolCallId ∉ s.seenCalls then
    { seenCalls := toolCallId :: s.seenCalls,
      seenResults := s.seenResults,
      callStart := fun k => if k = toolCallId then some now else s.callStart k,
      events := eventReducer now s.events (.registerCall
        { id := toolCallId, toolName := normalizeToolName toolName,
          timestamp := now, status := .running, durationMs := none,
          payload := parseToolPayload toolName args, result := none }) }
  else s

/-- The second `if` of the part loop (page.tsx lines 413-426): a first-seen
result-state occurrence classifies the result and dispatches register-result
with the derived status and elapsed duration. -/
def scanPartResult (now : Nat) (s : ScannerState)
    (toolCallId state : String) (result : JSValue) : ScannerState :=
  if state = "result" ∧ toolCallId ∉ s.seenResults then
    let startedAt := (s.callStart toolCallId).getD now
    let parsedResult := parseToolResult result
    { s with
      seenResults := toolCallId :: s.seenResults,
      events := eventReducer now s.events (.registerResult toolCallId
        (deriveStatusFromResult parsedResult) (now - startedAt) parsedResult) }
  else s

/-- One iteration of the part loop of the ingestion effect
(page.tsx lines 388-427).  `if (!toolCallId) return` is the falsy-string
guard; the two sequential `if`s on `state` run in order. -/
def scanPart (now : Nat) (s : ScannerState) (p : MessagePart) : ScannerState :=
  match p with
  | .other => s
  | .toolInvocation toolCallId toolName state args result =>
    if toolCallId = "" then s
    else
      scanPartResult now (scanPartCall now s toolCallId toolName state args)
        toolCallId state result

/-- The scanner's inner loop over one message's parts. -/
def scanMessage (now : Nat) (s : ScannerState) (m : ChatMessage) : ScannerState :=
  m.parts.foldl (scanPart now) s

/-- One run of the ingestion effect over the full message history. -/
def scanMessages (now : Nat) (s : ScannerState) (ms : List ChatMessage) : ScannerState :=
  ms.foldl (scanMessage now) s

/-- The message patch performed by `stop` in app/page.tsx (lines 167-194):
when the last message is an assistant message whose last part is a
tool-invocation, that part's state becomes "result" and its result the abort
sentinel; otherwise the history is left unchanged. -/
def stopMessages (messages : List ChatMessage) : List ChatMessage :=
  match messages.getLast? with
  | none => messages
  | some lastMessage =>
    match lastMessage.parts.getLast? with
    | some (.toolInvocation toolCallId toolName _state args _result) =>
      if lastMessage.role = "assistant" then
        messages.dropLast ++
          [{ role := lastMessage.role,
             parts := lastMessage.parts.dropLast ++
               [.toolInvocation toolCallId toolName "result" args (.str ABORTED)] }]
      else messages
    | _ => messages

/-- An id's event is currently displayed as pending. -/
def isRunning (es : EventState) (id : String) : Bool :=
  match es.byId id with
  | some e => match e.status with
    | .running => true
    | _ => false
  | none => false

example : parseToolPayload "bash" (.obj []) = .bash "" := rfl
example : parseToolPayload "computer" (.obj [("action", .str "zoom")]) =
    .computer "zoom" none none none none none := rfl
example : parseToolResult (.str "") = some (.text "") := rfl
example : parseToolResult (.str ABORTED) = some (.aborted ABORTED) := rfl
example : parseToolResult (.obj [("type", .str "image"), ("data", .str "abc123")]) =
    some (.image "abc123") := rfl
example : parseToolResult (.obj [("text", .str ABORTED)]) =
    some (.unknown (.obj [("text", .str ABORTED)])) := rfl

/-! ## States reachable through the reducer -/

/-- Event states reachable from the initial state by dispatching any sequence
of actions (with arbitrary clock readings). -/
inductive ReachableEventState : EventState → Prop where
  | init : ReachableEventState initialEventState
  | step (s : EventState) (now : Nat) (a : EventAction) :
      ReachableEventState s → ReachableEventState (eventReducer now s a)

/-- One reducer step preserves the order/byId invariant. -/
theorem eventReducer_preserves_invariant (now : Nat) (s : EventState) (a : EventAction)
    (h1 : s.order.Nodup) (h2 : ∀ id ∈ s.order, (s.byId id).isSome = true) :
    (eventReducer now s a).order.Nodup ∧
      ∀ id ∈ (eventReducer now s a).order, ((eventReducer now s a).byId id).isSome = true := by
  have hnotmem : ∀ id, s.byId id = none → id ∉ s.order := by
    intro id hnone hmem
    have := h2 id hmem
    rw [hnone] at this
    simp at this
  cases a with
  | registerCall e =>
    cases hby : s.byId e.id with
    | some ev =>
      refine ⟨?_, ?_⟩ <;> simp only [eventReducer, hby] <;> first
        | exact h1
        | exact h2
    | none =>
      constructor
      · simp only [eventReducer, hby]
        rw [List.nodup_append]
        exact ⟨h1, List.nodup_singleton _, by
          intro x hx hx'
          simp at hx'
          subst hx'
          exact hnotmem e.id hby hx⟩
      · intro id hid
        simp only [eventReducer, hby] at hid ⊢
        rcases List.mem_append.mp hid with hid' | hid'
        · have hne : id ≠ e.id := by
            intro hEq
            subst hEq
            exact hnotmem _ hby hid'
          rw [if_neg hne]
          exact h2 id hid'
        · simp at hid'
          subst hid'
          simp
  | registerResult rid st d r =>
    cases hby : s.byId rid with
    | none =>
      constructor
      · simp only [eventReducer, hby]
        rw [List.nodup_append]
        exact ⟨h1, List.nodup_singleton _, by
          intro x hx hx'
          simp at hx'
          subst hx'
          exact hnotmem _ hby hx⟩
      · intro id hid
        simp only [eventReducer, hby] at hid ⊢
        rcases List.mem_append.mp hid with hid' | hid'
        · have hne : id ≠ rid := by
            intro hEq
            subst hEq
            exact hnotmem _ hby hid'
          rw [if_neg hne]
          exact h2 id hid'
        · simp at hid'
          subst hid'
          simp
    | some ev =>
      constructor
      · simpa only [eventReducer, hby] using h1
      · intro id hid
        simp only [eventReducer, hby] at hid ⊢
        by_cases hEq : id = rid
        · rw [if_pos hEq]
          simp
        · rw [if_neg hEq]
          exact h2 id hid
  | reset =>
    refine ⟨?_, ?_⟩ <;> simp [eventReducer, initialEventState]

/-- Claim C1: in every state reachable from `initialEventState` through
`eventReducer`, `order` contains each id exactly once, every id in `order` has
an entry in `byId`, and a further register-result action for an id already in
`order` leaves that id's position in `order` unchanged. -/
theorem reachable_state_order_invariant (s : EventState) (h : ReachableEventState s) :
    (s.order.Nodup ∧ ∀ id ∈ s.order, (s.byId id).isSome = true) ∧
    ∀ (now : Nat) (id : String) (st : ToolEventStatus) (d : Nat) (r : Option ToolResult),
      id ∈ s.order →
        (eventReducer now s (.registerResult id st d r)).order.indexOf id =
          s.order.indexOf id := by
  have inv : s.order.Nodup ∧ ∀ id ∈ s.order, (s.byId id).isSome = true := by
    induction h with
    | init => exact ⟨List.nodup_nil, by intro id hid; simp [initialEventState] at hid⟩
    | step s now a _ ih => exact eventReducer_preserves_invariant now s a ih.1 ih.2
  refine ⟨inv, ?_⟩
  intro now id st d r hid
  obtain ⟨e, he⟩ := Option.isSome_iff_exists.mp (inv.2 id hid)
  simp only [eventReducer, he]

/-- A sample event used to instantiate the reducer theorems. -/
def sampleCallEvent : ToolEvent :=
  { id := "a", toolName := .bash, timestamp := 0, status := .running,
    durationMs := none, payload := .bash "ls", result := none }

theorem reachable_state_order_invariant_witness :
    (eventReducer 0 initialEventState (.registerCall sampleCallEvent)).order.Nodup ∧
    ((eventReducer 0 initialEventState (.registerCall sampleCallEvent)).byId "a").isSome
      = true ∧
    (eventReducer 5 (eventReducer 0 initialEventState (.registerCall sampleCallEvent))
        (.registerResult "a" .success 3 none)).order.indexOf "a" =
      (eventReducer 0 initialEventState (.registerCall sampleCallEvent)).order.indexOf "a" := by
  have T := reachable_state_order_invariant
    (eventReducer 0 initialEventState (.registerCall sampleCallEvent))
    (.step _ 0 _ .init)
  exact ⟨T.1.1, T.1.2 "a" (by decide), T.2 5 "a" .success 3 none (by decide)⟩

/-! ## Register-result and register-call behaviour -/

/-- Claim C5: a register-result action for an id with no entry synthesizes an
`unknown`-payload event with the given status, duration and result and appends
the id to `order`; for an existing entry only `status`, `durationMs` and
`result` change (`result` only when the action carries one), `order` is
unchanged, and every other id's entry is untouched. -/
theorem register_result_spec (now : Nat) (s : EventState) (id : String)
    (st : ToolEventStatus) (d : Nat) (r : Option ToolResult) :
    (s.byId id = none →
      (eventReducer now s (.registerResult id st d r)).byId id =
        some { id := id, toolName := .unknown, timestamp := now, status := st,
               durationMs := some d, payload := .unknown [], result := r } ∧
      (eventReducer now s (.registerResult id st d r)).order = s.order ++ [id] ∧
      ∀ j, j ≠ id → (eventReducer now s (.registerResult id st d r)).byId j = s.byId j) ∧
    (∀ e, s.byId id = some e →
      (eventReducer now s (.registerResult id st d r)).byId id =
        some { e with
               status := st, durationMs := some d,
               result := (match r with | some x => some x | none => e.result) } ∧
      (eventReducer now s (.registerResult id st d r)).order = s.order ∧
      ∀ j, j ≠ id → (eventReducer now s (.registerResult id st d r)).byId j = s.byId j) := by
  constructor
  · intro hby
    refine ⟨?_, ?_, ?_⟩
    · simp [eventReducer, hby]
    · simp [eventReducer, hby]
    · intro j hj
      simp [eventReducer, hby, hj]
  · intro e hby
    refine ⟨?_, ?_, ?_⟩
    · simp [eventReducer, hby]
    · simp [eventReducer, hby]
    · intro j hj
      simp [eventReducer, hby, hj]

theorem register_result_spec_witness :
    ((eventReducer 7 initialEventState (.registerResult "b" .success 3 none)).byId "b" =
      some { id := "b", toolName := .unknown, timestamp := 7, status := .success,
             durationMs := some 3, payload := .unknown [], result := none }) ∧
    ((eventReducer 7 initialEventState (.registerResult "b" .success 3 none)).order =
      initialEventState.order ++ ["b"]) ∧
    ((eventReducer 7 initialEventState (.registerResult "b" .success 3 none)).byId "c" =
      initialEventState.byId "c") ∧
    ((eventReducer 4 (eventReducer 0 initialEventState (.registerCall sampleCallEvent))
        (.registerResult "a" .aborted 9 (some (.text "done")))).byId "a" =
      some { sampleCallEvent with
             status := .aborted, durationMs := some 9,
             result := some (.text "done") }) ∧
    ((eventReducer 4 (eventReducer 0 initialEventState (.registerCall sampleCallEvent))
        (.registerResult "a" .aborted 9 (some (.text "done")))).order =
      (eventReducer 0 initialEventState (.registerCall sampleCallEvent)).order) := by
  have T1 := (register_result_spec 7 initialEventState "b" .success 3 none).1 rfl
  have T2 := (register_result_spec 4
    (eventReducer 0 initialEventState (.registerCall sampleCallEvent))
    "a" .aborted 9 (some (.text "done"))).2 sampleCallEvent rfl
  exact ⟨T1.1, T1.2.1, T1.2.2 "c" (by decide), T2.1, T2.2.1⟩

/-- The register-call counterexample event: a well-formed event dispatched with
a non-running status. -/
def nonRunningEvent : ToolEvent :=
  { id := "ev1", toolName := .bash, timestamp := 0, status := .success,
    durationMs := none, payload := .bash "", result := none }

/-- Claim C6, counterexample: for an event dispatched with status `success`
and an id absent from `byId`, register-call stores the event verbatim, so the
stored status is `success`, not `running` as the claim states. -/
theorem register_call_status_cex :
    initialEventState.byId "ev1" = none ∧
    (eventReducer 0 initialEventState (.registerCall nonRunningEvent)).byId "ev1" =
      some nonRunningEvent ∧
    nonRunningEvent.status = .success ∧
    (ToolEventStatus.success ≠ ToolEventStatus.running) := by
  refine ⟨rfl, ?_, rfl, by decide⟩
  simp [eventReducer, initialEventState, nonRunningEvent]

/-- Claim C6, amended: for an id absent from `byId`, register-call appends the
id to `order` and stores the dispatched event verbatim, so the stored status is
`running` exactly when the dispatched event carries status `running` (as every
dispatch made by the ingestion scanner does). -/
theorem register_call_inserts_event (now : Nat) (s : EventState) (e : ToolEvent)
    (h : s.byId e.id = none) :
    (eventReducer now s (.registerCall e)).order = s.order ++ [e.id] ∧
    (eventReducer now s (.registerCall e)).byId e.id = some e ∧
    (e.status = .running →
      ((eventReducer now s (.registerCall e)).byId e.id).map ToolEvent.status =
        some .running) := by
  refine ⟨?_, ?_, ?_⟩
  · simp [eventReducer, h]
  · simp [eventReducer, h]
  · intro hr
    simp [eventReducer, h, hr]

theorem register_call_inserts_event_witness :
    (eventReducer 0 initialEventState (.registerCall sampleCallEvent)).order =
      initialEventState.order ++ [sampleCallEvent.id] ∧
    (eventReducer 0 initialEventState (.registerCall sampleCallEvent)).byId
      sampleCallEvent.id = some sampleCallEvent ∧
    ((eventReducer 0 initialEventState (.registerCall sampleCallEvent)).byId
      sampleCallEvent.id).map ToolEvent.status = some .running := by
  have T := register_call_inserts_event 0 initialEventState sampleCallEvent rfl
  exact ⟨T.1, T.2.1, T.2.2 rfl⟩

/-- Claim C7: dispatching two register-call actions whose events share an id
yields the same state as dispatching only the first, and a register-call for an
id already present in `byId` returns the state unchanged. -/
theorem register_call_idempotent (now1 now2 : Nat) (s : EventState)
    (e1 e2 : ToolEvent) (h : e2.id = e1.id) :
    eventReducer now2 (eventReducer now1 s (.registerCall e1)) (.registerCall e2) =
      eventReducer now1 s (.registerCall e1) ∧
    ∀ e : ToolEvent, (s.byId e.id).isSome = true →
      eventReducer now1 s (.registerCall e) = s := by
  constructor
  · cases hby : s.byId e1.id with
    | some ev =>
      simp [eventReducer, hby, h]
    | none =>
      simp [eventReducer, hby, h]
  · intro e he
    obtain ⟨ev, hev⟩ := Option.isSome_iff_exists.mp he
    simp [eventReducer, hev]

theorem register_call_idempotent_witness :
    eventReducer 1 (eventReducer 0 initialEventState (.registerCall sampleCallEvent))
        (.registerCall sampleCallEvent) =
      eventReducer 0 initialEventState (.registerCall sampleCallEvent) ∧
    eventReducer 2 (eventReducer 0 initialEventState (.registerCall sampleCallEvent))
        (.registerCall sampleCallEvent) =
      eventReducer 0 initialEventState (.registerCall sampleCallEvent) := by
  refine ⟨(register_call_idempotent 0 1 initialEventState
    sampleCallEvent sampleCallEvent rfl).1, ?_⟩
  exact (register_call_idempotent 2 0
      (eventReducer 0 initialEventState (.registerCall sampleCallEvent))
      sampleCallEvent sampleCallEvent rfl).2 sampleCallEvent (by decide)

/-! ## Result classification -/

/-- Claim C8: `deriveStatusFromResult` yields `aborted` exactly for a present
`aborted` result; an absent result and the `text`, `image` and `unknown`
results all yield `success`; `error` and `running` are never produced. -/
theorem deriveStatus_classification (r : Option ToolResult) :
    (deriveStatusFromResult r = .aborted ↔ ∃ t, r = some (.aborted t)) ∧
    deriveStatusFromResult r ≠ .error ∧
    deriveStatusFromResult r ≠ .running ∧
    deriveStatusFromResult none = .success ∧
    (∀ t, deriveStatusFromResult (some (.text t)) = .success) ∧
    (∀ d, deriveStatusFromResult (some (.image d)) = .success) ∧
    (∀ v, deriveStatusFromResult (some (.unknown v)) = .success) := by
  refine ⟨?_, ?_, ?_, rfl, fun t => rfl, fun d => rfl, fun v => rfl⟩ <;>
    rcases r with _ | res <;> try simp [deriveStatusFromResult]
  all_goals cases res <;> simp [deriveStatusFromResult]

/-- The object branch of `parseToolResult`, as a definitional equation. -/
theorem parseToolResult_obj (fields : List (String × JSValue)) :
    parseToolResult (.obj fields) =
      (if asString (getField fields "type") = some "image" then
        match asString (getField fields "data") with
        | some d => some (.image d)
        | none => some (.unknown (.obj fields))
      else if asString (getField fields "type") = some "text" then
        match asString (getField fields "text") with
        | some t => if t = ABORTED then some (.aborted t) else some (.text t)
        | none => some (.unknown (.obj fields))
      else some (.unknown (.obj fields))) := rfl

/-- Claim C10: the empty string is a present result, classified as `text` with
empty text and derived status `success`; only `undefined` and `null` inputs
produce no `ToolResult`. -/
theorem parseToolResult_empty_string (v : JSValue) :
    parseToolResult (.str "") = some (.text "") ∧
    deriveStatusFromResult (parseToolResult (.str "")) = .success ∧
    parseToolResult .undef = none ∧
    parseToolResult .null = none ∧
    (parseToolResult v = none → v = .undef ∨ v = .null) := by
  refine ⟨rfl, rfl, rfl, rfl, ?_⟩
  intro h
  cases v with
  | undef => exact Or.inl rfl
  | null => exact Or.inr rfl
  | bool b => simp [parseToolResult, asRecord] at h
  | num n => simp [parseToolResult, asRecord] at h
  | arr es => simp [parseToolResult, asRecord] at h
  | str s =>
    rw [parseToolResult] at h
    split at h <;> simp at h
  | obj fields =>
    rw [parseToolResult_obj] at h
    split at h
    · split at h <;> simp at h
    · split at h
      · split at h
        · split at h <;> simp at h
        · simp at h
      · simp at h

theorem parseToolResult_empty_string_witness :
    parseToolResult (.str "") = some (.text "") ∧
    deriveStatusFromResult (parseToolResult (.str "")) = .success ∧
    (JSValue.undef = JSValue.undef ∨ JSValue.undef = JSValue.null) := by
  have T := parseToolResult_empty_string .undef
  exact ⟨T.1, T.2.1, T.2.2.2.2 rfl⟩

/-- Claim C2, counterexample: an object whose `text` field is the abort
sentinel but which lacks the `type := "text"` discriminant is classified as
`unknown` with derived status `success`, not as `aborted`. -/
theorem abort_sentinel_without_discriminant_cex :
    getField [("text", .str ABORTED)] "text" = .str ABORTED ∧
    parseToolResult (.obj [("text", .str ABORTED)]) =
      some (.unknown (.obj [("text", .str ABORTED)])) ∧
    deriveStatusFromResult (parseToolResult (.obj [("text", .str ABORTED)])) =
      .success := ⟨rfl, rfl, rfl⟩

/-- Claim C2, amended: a raw result that is the sentinel string itself, or an
object whose `type` field is the string "text" and whose `text` field is the
sentinel string, is classified as `aborted`, and its derived status is
`aborted`. -/
theorem abort_sentinel_classifies_aborted (v : JSValue)
    (h : v = .str ABORTED ∨
      ∃ fields, v = .obj fields ∧
        getField fields "type" = .str "text" ∧
        getField fields "text" = .str ABORTED) :
    parseToolResult v = some (.aborted ABORTED) ∧
    deriveStatusFromResult (parseToolResult v) = .aborted := by
  rcases h with rfl | ⟨fields, rfl, htype, htext⟩
  · exact ⟨rfl, rfl⟩
  · have hres : parseToolResult (.obj fields) = some (.aborted ABORTED) := by
      rw [parseToolResult_obj]
      simp only [htype, htext, asString]
      simp
    exact ⟨hres, by rw [hres]; rfl⟩

theorem abort_sentinel_classifies_aborted_witness :
    parseToolResult (.str ABORTED) = some (.aborted ABORTED) ∧
    deriveStatusFromResult (parseToolResult (.str ABORTED)) = .aborted := by
  exact abort_sentinel_classifies_aborted (.str ABORTED) (Or.inl rfl)

/-! ## Payload normalization -/

/-- Claim C3: the code evaluated at the failing input.  For tool kind
"computer" with an `action` string outside the declared ten-value union, the
unchecked `as ComputerAction` cast passes the string through: the payload's
action is "zoom", not "unknown". -/
theorem computer_action_unchecked_cast_bug :
    parseToolPayload "computer" (.obj [("action", .str "zoom")]) =
      .computer "zoom" none none none none none ∧
    "zoom" ∉ computerActions := ⟨rfl, by decide⟩

/-- Claim C4, counterexample: for a tool kind other than "bash"/"computer" and
a non-object argument, the `raw` field is the empty record, which is not the
original arguments value. -/
theorem unknown_raw_not_verbatim_cex :
    parseToolPayload "files" (.str "hi") = .unknown [] ∧
    JSValue.obj [] ≠ JSValue.str "hi" :=
  ⟨rfl, fun h => nomatch h⟩

/-- Claim C4, amended: for a tool kind other than "bash" and "computer", the
payload is the `unknown` variant; its `raw` field is the arguments' key-value
record when the arguments are a non-null, non-array object (preserved
verbatim), and the empty record otherwise. -/
theorem parseToolPayload_unknown_kind_raw (name : String) (args : JSValue)
    (h1 : name ≠ "bash") (h2 : name ≠ "computer") :
    parseToolPayload name args = .unknown ((asRecord args).getD []) ∧
    ∀ fields, args = .obj fields → parseToolPayload name args = .unknown fields := by
  constructor
  · simp [parseToolPayload, h1, h2]
  · rintro fields rfl
    simp [parseToolPayload, h1, h2, asRecord]

theorem parseToolPayload_unknown_kind_raw_witness :
    parseToolPayload "files" (.obj [("k", .str "v")]) =
      .unknown ((asRecord (.obj [("k", .str "v")])).getD []) ∧
    parseToolPayload "files" (.obj [("k", .str "v")]) = .unknown [("k", .str "v")] := by
  have T := parseToolPayload_unknown_kind_raw "files" (.obj [("k", .str "v")])
    (by decide) (by decide)
  exact ⟨T.1, T.2 [("k", .str "v")] rfl⟩

/-! ## The stop path (claim C9) -/

/-- The full ingestion pipeline from a freshly reset scanner context. -/
def scanHistory (now : Nat) (ms : List ChatMessage) : ScannerState :=
  scanMessages now initialScannerState ms

/-- The scanner's dedup memory already covers a part: rescanning it can
dispatch nothing. -/
def partSeen (s : ScannerState) : MessagePart → Prop
  | .other => True
  | .toolInvocation toolCallId _ state _ _ =>
    toolCallId = "" ∨
      ((state = "call" → toolCallId ∈ s.seenCalls) ∧
       (state = "result" → toolCallId ∈ s.seenResults))

theorem scanPartCall_seenResults (now : Nat) (s : ScannerState)
    (id tn st : String) (args : JSValue) :
    (scanPartCall now s id tn st args).seenResults = s.seenResults := by
  rw [scanPartCall]
  split <;> rfl

theorem scanPartResult_seenCalls (now : Nat) (s : ScannerState)
    (id st : String) (res : JSValue) :
    (scanPartResult now s id st res).seenCalls = s.seenCalls := by
  rw [scanPartResult]
  split <;> rfl

theorem scanPartCall_calls_mono (now : Nat) (s : ScannerState)
    (id tn st : String) (args : JSValue) :
    s.seenCalls ⊆ (scanPartCall now s id tn st args).seenCalls := by
  rw [scanPartCall]
  split
  · exact fun x hx => List.mem_cons_of_mem _ hx
  · exact fun x hx => hx

theorem scanPartResult_results_mono (now : Nat) (s : ScannerState)
    (id st : String) (res : JSValue) :
    s.seenResults ⊆ (scanPartResult now s id st res).seenResults := by
  rw [scanPartResult]
  split
  · exact fun x hx => List.mem_cons_of_mem _ hx
  · exact fun x hx => hx

theorem scanPart_seen_mono (now : Nat) (s : ScannerState) (p : MessagePart) :
    s.seenCalls ⊆ (scanPart now s p).seenCalls ∧
    s.seenResults ⊆ (scanPart now s p).seenResults := by
  cases p with
  | other => exact ⟨fun _ h => h, fun _ h => h⟩
  | toolInvocation id tn st args res =>
    by_cases hid : id = ""
    · simp only [scanPart, if_pos hid]
      exact ⟨fun _ h => h, fun _ h => h⟩
    · simp only [scanPart, if_neg hid]
      constructor
      · rw [scanPartResult_seenCalls]
        exact scanPartCall_calls_mono now s id tn st args
      · intro x hx
        apply scanPartResult_results_mono
        rw [scanPartCall_seenResults]
        exact hx

theorem foldl_scanPart_mono (now : Nat) (ps : List MessagePart) (s : ScannerState) :
    s.seenCalls ⊆ (ps.foldl (scanPart now) s).seenCalls ∧
    s.seenResults ⊆ (ps.foldl (scanPart now) s).seenResults := by
  induction ps generalizing s with
  | nil => exact ⟨fun _ h => h, fun _ h => h⟩
  | cons p ps ih =>
    simp only [List.foldl_cons]
    constructor
    · exact fun x hx => (ih (scanPart now s p)).1 ((scanPart_seen_mono now s p).1 hx)
    · exact fun x hx => (ih (scanPart now s p)).2 ((scanPart_seen_mono now s p).2 hx)

theorem scanMessages_seen_mono (now : Nat) (ms : List ChatMessage) (s : ScannerState) :
    s.seenCalls ⊆ (scanMessages now s ms).seenCalls ∧
    s.seenResults ⊆ (scanMessages now s ms).seenResults := by
  induction ms generalizing s with
  | nil => exact ⟨fun _ h => h, fun _ h => h⟩
  | cons m ms ih =>
    simp only [scanMessages, List.foldl_cons]
    constructor
    · exact fun x hx => (ih (scanMessage now s m)).1 ((foldl_scanPart_mono now m.parts s).1 hx)
    · exact fun x hx => (ih (scanMessage now s m)).2 ((foldl_scanPart_mono now m.parts s).2 hx)

theorem partSeen_mono {s t : ScannerState} (p : MessagePart)
    (hc : s.seenCalls ⊆ t.seenCalls) (hr : s.seenResults ⊆ t.seenResults)
    (h : partSeen s p) : partSeen t p := by
  cases p with
  | other => trivial
  | toolInvocation id tn st args res =>
    rcases h with h0 | ⟨h1, h2⟩
    · exact Or.inl h0
    · exact Or.inr ⟨fun hst => hc (h1 hst), fun hst => hr (h2 hst)⟩

theorem scanPart_of_partSeen (now : Nat) (s : ScannerState) (p : MessagePart)
    (h : partSeen s p) : scanPart now s p = s := by
  cases p with
  | other => rfl
  | toolInvocation id tn st args res =>
    rcases h with h0 | ⟨h1, h2⟩
    · simp only [scanPart, if_pos h0]
    · by_cases hid : id = ""
      · simp only [scanPart, if_pos hid]
      · have hcall : scanPartCall now s id tn st args = s := by
          rw [scanPartCall, if_neg]
          rintro ⟨hst, hmem⟩
          exact hmem (h1 hst)
        simp only [scanPart, if_neg hid]
        rw [hcall, scanPartResult, if_neg]
        rintro ⟨hst, hmem⟩
        exact hmem (h2 hst)

theorem scanPart_self_partSeen (now : Nat) (s : ScannerState) (p : MessagePart) :
    partSeen (scanPart now s p) p := by
  cases p with
  | other => trivial
  | toolInvocation id tn st args res =>
    by_cases hid : id = ""
    · exact Or.inl hid
    · refine Or.inr ⟨?_, ?_⟩
      · intro hst
        simp only [scanPart, if_neg hid]
        rw [scanPartResult_seenCalls, scanPartCall]
        split
        · exact List.mem_cons_self _ _
        · rename_i hneg
          by_contra hmem
          exact hneg ⟨hst, hmem⟩
      · intro hst
        simp only [scanPart, if_neg hid]
        rw [scanPartResult]
        split
        · exact List.mem_cons_self _ _
        · rename_i hneg
          by_contra hmem
          exact hneg ⟨hst, hmem⟩

theorem foldl_scanPart_covers (now : Nat) (ps : List MessagePart) (s : ScannerState)
    (p : MessagePart) (hp : p ∈ ps) :
    partSeen (ps.foldl (scanPart now) s) p := by
  induction ps generalizing s with
  | nil => cases hp
  | cons q qs ih =>
    rcases List.mem_cons.mp hp with rfl | hp'
    · simp only [List.foldl_cons]
      have hmono := foldl_scanPart_mono now qs (scanPart now s p)
      exact partSeen_mono p hmono.1 hmono.2 (scanPart_self_partSeen now s p)
    · simp only [List.foldl_cons]
      exact ih (scanPart now s q) hp'

theorem scanMessages_covers (now : Nat) (ms : List ChatMessage) (s : ScannerState)
    (m : ChatMessage) (p : MessagePart) (hm : m ∈ ms) (hp : p ∈ m.parts) :
    partSeen (scanMessages now s ms) p := by
  induction ms generalizing s with
  | nil => cases hm
  | cons m' ms' ih =>
    rcases List.mem_cons.mp hm with rfl | hm'
    · simp only [scanMessages, List.foldl_cons]
      have h0 : partSeen (scanMessage now s m) p :=
        foldl_scanPart_covers now m.parts s p hp
      have hmono := scanMessages_seen_mono now ms' (scanMessage now s m)
      exact partSeen_mono p hmono.1 hmono.2 h0
    · simp only [scanMessages, List.foldl_cons]
      exact ih (scanMessage now s m') hm'

theorem foldl_scanPart_of_seen (now : Nat) (ps : List MessagePart) (s : ScannerState)
    (h : ∀ p ∈ ps, partSeen s p) :
    ps.foldl (scanPart now) s = s := by
  induction ps with
  | nil => rfl
  | cons q qs ih =>
    have hq := scanPart_of_partSeen now s q (h q (List.mem_cons_self q qs))
    simp only [List.foldl_cons, hq]
    exact ih (fun p hp => h p (List.mem_cons_of_mem _ hp))

theorem scanMessages_of_seen (now : Nat) (ms : List ChatMessage) (s : ScannerState)
    (h : ∀ m ∈ ms, ∀ p ∈ m.parts, partSeen s p) :
    scanMessages now s ms = s := by
  induction ms with
  | nil => rfl
  | cons m' ms' ih =>
    have hm : scanMessage now s m' = s :=
      foldl_scanPart_of_seen now m'.parts s (h m' (List.mem_cons_self _ _))
    simp only [scanMessages, List.foldl_cons, hm]
    exact ih (fun m hm' p hp => h m (List.mem_cons_of_mem _ hm') p hp)

theorem mem_of_getLast?_eq {α : Type} {l : List α} {a : α}
    (h : l.getLast? = some a) : a ∈ l := by
  have hd := List.dropLast_append_getLast? a (Option.mem_def.mpr h)
  rw [← hd]
  exact List.mem_append_right _ (List.mem_singleton_self a)

theorem stopMessages_eq (ms : List ChatMessage) (lm : ChatMessage)
    (X tn st : String) (args res : JSValue)
    (hlast : ms.getLast? = some lm)
    (hpart : lm.parts.getLast? = some (.toolInvocation X tn st args res))
    (hrole : lm.role = "assistant") :
    stopMessages ms = ms.dropLast ++
      [{ role := lm.role,
         parts := lm.parts.dropLast ++
           [.toolInvocation X tn "result" args (.str ABORTED)] }] := by
  simp only [stopMessages, hlast, hpart]
  rw [if_pos hrole]

/-- Claim C9: when a user-initiated stop occurs while the most recent pending
tool call is still open — the last message is the assistant's, its last part
is the tool invocation with id `X`, no result occurrence for `X` has been
observed, and `X` is the only id whose event is still `running` — the stop
path synthesizes a final aborted result for that call, and after the scanner
next processes the patched history no event in the store is in `running`
status. -/
theorem stop_clears_running_events
    (now now2 : Nat) (ms : List ChatMessage) (lm : ChatMessage)
    (X tn st : String) (args res : JSValue)
    (hlast : ms.getLast? = some lm)
    (hrole : lm.role = "assistant")
    (hpart : lm.parts.getLast? = some (.toolInvocation X tn st args res))
    (hX : X ≠ "")
    (hopen : X ∉ (scanHistory now ms).seenResults)
    (hpending : ∀ id ∈ (scanHistory now ms).events.order,
        isRunning (scanHistory now ms).events id = true → id = X) :
    ∀ id ∈ (scanMessages now2 (scanHistory now ms) (stopMessages ms)).events.order,
      isRunning (scanMessages now2 (scanHistory now ms) (stopMessages ms)).events id
        = false := by
  have hcover : ∀ m ∈ ms, ∀ p ∈ m.parts, partSeen (scanHistory now ms) p :=
    fun m hm p hp => scanMessages_covers now ms initialScannerState m p hm hp
  have hlm_mem : lm ∈ ms := mem_of_getLast?_eq hlast
  have hstop := stopMessages_eq ms lm X tn st args res hlast hpart hrole
  have hscan : scanMessages now2 (scanHistory now ms) (stopMessages ms) =
      scanPart now2 (scanHistory now ms)
        (.toolInvocation X tn "result" args (.str ABORTED)) := by
    rw [hstop]
    simp only [scanMessages, List.foldl_append, List.foldl_cons, List.foldl_nil]
    have h1 : List.foldl (scanMessage now2) (scanHistory now ms) ms.dropLast =
        scanHistory now ms :=
      scanMessages_of_seen now2 ms.dropLast (scanHistory now ms)
        (fun m hm p hp => hcover m ((List.dropLast_sublist ms).subset hm) p hp)
    rw [h1]
    simp only [scanMessage, List.foldl_append, List.foldl_cons, List.foldl_nil]
    have h2 : List.foldl (scanPart now2) (scanHistory now ms) lm.parts.dropLast =
        scanHistory now ms :=
      foldl_scanPart_of_seen now2 lm.parts.dropLast (scanHistory now ms)
        (fun p hp => hcover lm hlm_mem p ((List.dropLast_sublist lm.parts).subset hp))
    rw [h2]
  have hfinal : scanPart now2 (scanHistory now ms)
      (.toolInvocation X tn "result" args (.str ABORTED)) =
      { scanHistory now ms with
        seenResults := X :: (scanHistory now ms).seenResults,
        events := eventReducer now2 (scanHistory now ms).events (.registerResult X
          (deriveStatusFromResult (parseToolResult (.str ABORTED)))
          (now2 - (((scanHistory now ms).callStart X).getD now2))
          (parseToolResult (.str ABORTED))) } := by
    have hc : scanPartCall now2 (scanHistory now ms) X tn "result" args =
        scanHistory now ms := by
      rw [scanPartCall, if_neg]
      rintro ⟨hst, _⟩
      exact absurd hst (by decide)
    simp only [scanPart, if_neg hX]
    rw [hc, scanPartResult, if_pos ⟨rfl, hopen⟩]
  rw [hscan, hfinal]
  intro id hid
  have habort : deriveStatusFromResult (parseToolResult (.str ABORTED)) =
      .aborted := rfl
  by_cases hidX : id = X
  · subst hidX
    cases hby : (scanHistory now ms).events.byId id with
    | none => simp [eventReducer, hby, isRunning, habort]
    | some e => simp [eventReducer, hby, isRunning, habort]
  · have hsame : (eventReducer now2 (scanHistory now ms).events (.registerResult X
        (deriveStatusFromResult (parseToolResult (.str ABORTED)))
        (now2 - (((scanHistory now ms).callStart X).getD now2))
        (parseToolResult (.str ABORTED)))).byId id =
        (scanHistory now ms).events.byId id := by
      cases hby : (scanHistory now ms).events.byId X <;>
        simp [eventReducer, hby, hidX]
    have hmem : id ∈ (scanHistory now ms).events.order := by
      cases hby : (scanHistory now ms).events.byId X with
      | none =>
        simp only [eventReducer, hby, List.mem_append, List.mem_singleton] at hid
        rcases hid with h | h
        · exact h
        · exact absurd h hidX
      | some e =>
        simpa only [eventReducer, hby] using hid
    cases hrun : isRunning (scanHistory now ms).events id with
    | false =>
      rw [isRunning] at hrun ⊢
      rw [hsame]
      exact hrun
    | true => exact absurd (hpending id hmem hrun) hidX

/-- A concrete one-message history with a single open bash call. -/
def pendingCallHistory : List ChatMessage :=
  [{ role := "assistant",
     parts := [.toolInvocation "t1" "bash" "call"
       (.obj [("command", .str "ls")]) .undef] }]

theorem stop_clears_running_events_witness :
    isRunning (scanMessages 5 (scanHistory 0 pendingCallHistory)
        (stopMessages pendingCallHistory)).events "t1" = false := by
  have T := stop_clears_running_events 0 5 pendingCallHistory
    { role := "assistant",
      parts := [.toolInvocation "t1" "bash" "call"
        (.obj [("command", .str "ls")]) .undef] }
    "t1" "bash" "call" (.obj [("command", .str "ls")]) .undef
    rfl rfl rfl (by decide) (by decide) (by decide)
  exact T "t1" (by decide)
